import Mathlib

/-!
Verification of the XQAOA-Dataset MaxCut expectation evaluator
(`Graph.py` and `XQAOA.py`).

Embedding conventions:
* Python node identities are decimal strings `"0" .. "n-1"`; since the
  mapping `i ↦ toString i` is injective we model them as `Nat`.
* Python edge identities are strings `"i#j"` with `i < j`; we model them as
  canonical pairs `(i, j) : Nat × Nat`.  The string rendering is kept for
  the `get_edge_id` helper, whose output format is part of its contract.
* Python dicts preserve insertion order; we model them as association
  lists (`List (key × value)`), which keeps both the lookup semantics and
  the iteration order used by `set_angles`.
* Python `set` values become `Finset Nat`; all iterations over sets feed
  commutative products, so the arbitrary iteration order is irrelevant.
* Floating point numbers are modelled as elements of an arbitrary field
  `R`, with `numpy.sin` / `numpy.cos` as unintepreted functions
  `tsin tcos : R → R`.
* Fallible operations (dict lookup `KeyError`, `set.remove` `KeyError`,
  `assert`) return `Option`.
-/

/-- Lookup in a Python dict modelled as an association list
(`d[k]`, raising `KeyError` = `none`). -/
def dictGet {κ V : Type} [DecidableEq κ] (k : κ) : List (κ × V) → Option V
  | [] => none
  | (k', v) :: rest => if k = k' then some v else dictGet k rest

/-- Run a fallible function over every element of a list, failing if any
call fails (a Python `for` loop whose body may raise). -/
def mapOpt {α β : Type} (f : α → Option β) : List α → Option (List β)
  | [] => some []
  | a :: l => do
      let b ← f a
      let bs ← mapOpt f l
      pure (b :: bs)

/-- Python `set.remove`: fails when the element is absent. -/
def setRemove (s : Finset Nat) (a : Nat) : Option (Finset Nat) :=
  if a ∈ s then some (s.erase a) else none

/-- The elements of a multiset of naturals, listed in ascending order
(insertion sort respects permutation, so it lifts to the quotient). -/
def msList (m : Multiset Nat) : List Nat :=
  Quot.liftOn m (fun l => l.insertionSort (· ≤ ·)) (fun _ _ h =>
    List.eq_of_perm_of_sorted
      ((List.perm_insertionSort _ _).trans
        (h.trans (List.perm_insertionSort _ _).symm))
      (List.sorted_insertionSort _ _) (List.sorted_insertionSort _ _))

/-- Iteration over a Python set (`for w in s`).  Python's iteration order
is unspecified; every use below feeds a commutative product, so we fix
the ascending order. -/
def setList (s : Finset Nat) : List Nat := msList s.val

/-- Reassign the values of an ordered dict positionally:
`for i, k in enumerate(d): d[k] = vals[i]`, failing if `vals` runs out. -/
def assignVals {κ V : Type} : List (κ × V) → List V → Option (List (κ × V))
  | [], _ => some []
  | (k, _) :: rest, v :: vs => (assignVals rest vs).map (fun t => (k, v) :: t)
  | _ :: _, [] => none

/-- Lexicographic (non-strict) order on canonical pairs: the comparison
used by `graph_edges.sort(key=lambda x: (x[0], x[1]))`. -/
def pairLe (p q : Nat × Nat) : Prop :=
  p.1 < q.1 ∨ (p.1 = q.1 ∧ p.2 ≤ q.2)

instance : DecidableRel pairLe :=
  fun p q => inferInstanceAs (Decidable (p.1 < q.1 ∨ (p.1 = q.1 ∧ p.2 ≤ q.2)))

instance : IsTotal (Nat × Nat) pairLe :=
  ⟨by intro p q; unfold pairLe; omega⟩

instance : IsTrans (Nat × Nat) pairLe :=
  ⟨by intro p q r; unfold pairLe; omega⟩

/-- Strict lexicographic order on canonical pairs ("ascending (min, max)
order"). -/
def pairLt (p q : Nat × Nat) : Prop :=
  p.1 < q.1 ∨ (p.1 = q.1 ∧ p.2 < q.2)

/-- The canonical unordered-pair key `(min, max)` (Python `"min#max"`). -/
def canonKey (a b : Nat) : Nat × Nat := (min a b, max a b)

/-- `Graph.__init__` fields that the evaluator observes:
`num_nodes`, `num_edges = len(edges)` (the raw input-list length), and the
keys of the `edges` dict in insertion order (canonicalized, sorted,
deduplicated). The `nodes` dict keys are `0 .. num_nodes - 1` and need no
separate field.  The stored `Node.neighbours`, `Edge.triangle_nodes` and
`Edge.in_triangle` fields are recomputed by the methods below exactly as
`__init__` computes them, so they are derived data. -/
structure Graph where
  num_nodes : Nat
  num_edges : Nat
  edgeKeys : List (Nat × Nat)
deriving DecidableEq

/-- `Graph.__init__(n, edges)`: canonicalize each input pair to
`(min, max)`, sort lexicographically, deduplicate (dict key insertion),
and require every endpoint to be a valid node id (otherwise
`self.nodes[f'{i}']` raises `KeyError`). -/
def Graph.make (n : Nat) (es : List (Nat × Nat)) : Option Graph :=
  let canon := es.map (fun p => (min p.1 p.2, max p.1 p.2))
  if ∀ p ∈ canon, p.1 < n ∧ p.2 < n then
    some ⟨n, es.length, (List.insertionSort pairLe canon).dedup⟩
  else none

/-- `Graph.neighbours(node_id)`: scan all edge keys, collecting the other
endpoint of every key containing `node_id` (first comparing against the
left half, `elif` against the right half), then form a set. -/
def Graph.neighbours (g : Graph) (nid : Nat) : Finset Nat :=
  (g.edgeKeys.filterMap (fun p =>
    if nid = p.1 then some p.2
    else if nid = p.2 then some p.1
    else none)).toFinset

/-- `Graph.triangle_nodes(edge_id)`: the intersection of the two
endpoints' neighbour sets. -/
def Graph.triangle_nodes (g : Graph) (ek : Nat × Nat) : Finset Nat :=
  g.neighbours ek.1 ∩ g.neighbours ek.2

/-- `Graph.in_triangle(edge_id)`: `len(triangle_nodes(edge_id)) != 0`. -/
def Graph.in_triangle (g : Graph) (ek : Nat × Nat) : Bool :=
  (g.triangle_nodes ek).card != 0

/-- `XQAOA.get_edge_id(u_id, v_id)`: assert `u ≠ v`, then render the
canonical key string `"min#max"`. -/
def get_edge_id (u v : Nat) : Option String :=
  if u = v then none
  else if u < v then some (toString u ++ "#" ++ toString v)
  else some (toString v ++ "#" ++ toString u)

/-- `get_edge_id` at the level of canonical pairs (the form used
internally, since edge-id strings are modelled as pairs). -/
def edgeIdP (u v : Nat) : Option (Nat × Nat) :=
  if u = v then none
  else if u < v then some (u, v)
  else some (v, u)

/-- The string helper is the pair helper followed by rendering. -/
theorem get_edge_id_eq_edgeIdP (u v : Nat) :
    get_edge_id u v =
      (edgeIdP u v).map (fun p => toString p.1 ++ "#" ++ toString p.2) := by
  unfold get_edge_id edgeIdP
  split <;> [rfl; skip]
  split <;> rfl

/-- Looking up the gamma angle of the edge between nodes `a` and `b`:
`self.gammas[self.get_edge_id(a, b)]` (fails when `a = b` or when the
edge is absent). -/
def lookupGamma {R : Type} (gammas : List ((Nat × Nat) × R)) (a b : Nat) :
    Option R :=
  (edgeIdP a b).bind (fun k => dictGet k gammas)

/-- The body of the triangle loops of `term2` / `term3`: the pair
`(gamma_uf, gamma_vf)` for a triangle node `f` of the edge `{u, v}`. -/
def trianglePair {R : Type} (gammas : List ((Nat × Nat) × R)) (u v f : Nat) :
    Option (R × R) :=
  (lookupGamma gammas u f).bind (fun guf =>
    (lookupGamma gammas v f).map (fun gvf => (guf, gvf)))

/-- The `XQAOA` evaluator state: the bound graph plus the four ordered
dicts `alphas`, `betas`, `gammas`, `edge_costs`. -/
structure XQAOA (R : Type) where
  graph : Graph
  alphas : List (Nat × R)
  betas : List (Nat × R)
  gammas : List ((Nat × Nat) × R)
  edge_costs : List ((Nat × Nat) × R)
deriving DecidableEq

/-- `XQAOA.__init__(graph)`: every angle and edge cost defaults to 0.0,
keyed over the graph's node ids and edge keys in their stored order. -/
def XQAOA.init {R : Type} [Field R] (g : Graph) : XQAOA R :=
  { graph := g
    alphas := (List.range g.num_nodes).map (fun i => (i, 0))
    betas := (List.range g.num_nodes).map (fun i => (i, 0))
    gammas := g.edgeKeys.map (fun k => (k, 0))
    edge_costs := g.edgeKeys.map (fun k => (k, 0)) }

/-- `XQAOA.set_angles(angles)`: assert
`len(angles) == 2*num_nodes + num_edges`, slice into the alpha, beta and
gamma blocks, and reassign each dict positionally. -/
def XQAOA.set_angles {R : Type} [Field R] (x : XQAOA R) (angles : List R) :
    Option (XQAOA R) :=
  if angles.length = 2 * x.graph.num_nodes + x.graph.num_edges then do
    let newAlphas ← assignVals x.alphas (angles.take x.graph.num_nodes)
    let newBetas ← assignVals x.betas
      ((angles.drop x.graph.num_nodes).take x.graph.num_nodes)
    let newGammas ← assignVals x.gammas
      (angles.drop (2 * x.graph.num_nodes))
    pure { x with alphas := newAlphas, betas := newBetas, gammas := newGammas }
  else none

/-- `XQAOA.term1(edge_id)`. -/
def XQAOA.term1 {R : Type} [Field R] (tsin tcos : R → R) (x : XQAOA R)
    (ek : Nat × Nat) : Option R := do
  let u := ek.1
  let v := ek.2
  let alpha_u ← dictGet u x.alphas
  let alpha_v ← dictGet v x.alphas
  let beta_u ← dictGet u x.betas
  let beta_v ← dictGet v x.betas
  let gamma_uv ← dictGet ek x.gammas
  let e ← setRemove (x.graph.neighbours v) u
  let d ← setRemove (x.graph.neighbours u) v
  let eGammas ← mapOpt (fun w => lookupGamma x.gammas w v) (setList e)
  let dGammas ← mapOpt (fun w => lookupGamma x.gammas u w) (setList d)
  let e_terms := tcos (2 * beta_u) * tsin (2 * beta_v) * (eGammas.map tcos).prod
  let d_terms := tsin (2 * beta_u) * tcos (2 * beta_v) * (dGammas.map tcos).prod
  pure (tcos (2 * alpha_u) * tcos (2 * alpha_v) * tsin gamma_uv *
    (e_terms + d_terms))

/-- `XQAOA.term2(edge_id)`. -/
def XQAOA.term2 {R : Type} [Field R] (tsin tcos : R → R) (x : XQAOA R)
    (ek : Nat × Nat) : Option R := do
  let u := ek.1
  let v := ek.2
  let alpha_u ← dictGet u x.alphas
  let alpha_v ← dictGet v x.alphas
  let F := x.graph.triangle_nodes ek
  let e ← setRemove (x.graph.neighbours v) u
  let eEdges ← mapOpt (fun w => edgeIdP v w)
    ((setList e).filter (fun w => decide (w ∉ F)))
  let d ← setRemove (x.graph.neighbours u) v
  let dEdges ← mapOpt (fun w => edgeIdP u w)
    ((setList d).filter (fun w => decide (w ∉ F)))
  let Ekeys := (eEdges ++ dEdges).dedup
  let Egammas ← mapOpt (fun k => dictGet k x.gammas) Ekeys
  let contrib := -(0.5 : R) * tsin (2 * alpha_u) * tsin (2 * alpha_v) *
    (Egammas.map tcos).prod
  let fPairs ← mapOpt (fun f => trianglePair x.gammas u v f) (setList F)
  let tri1 := (fPairs.map (fun p => tcos (p.1 + p.2))).prod
  let tri2 := (fPairs.map (fun p => tcos (p.1 - p.2))).prod
  pure (contrib * (tri1 + tri2))

/-- `XQAOA.term3(edge_id)`. -/
def XQAOA.term3 {R : Type} [Field R] (tsin tcos : R → R) (x : XQAOA R)
    (ek : Nat × Nat) : Option R := do
  let u := ek.1
  let v := ek.2
  let alpha_u ← dictGet u x.alphas
  let alpha_v ← dictGet v x.alphas
  let beta_u ← dictGet u x.betas
  let beta_v ← dictGet v x.betas
  let F := x.graph.triangle_nodes ek
  let e ← setRemove (x.graph.neighbours v) u
  let eEdges ← mapOpt (fun w => edgeIdP v w)
    ((setList e).filter (fun w => decide (w ∉ F)))
  let d ← setRemove (x.graph.neighbours u) v
  let dEdges ← mapOpt (fun w => edgeIdP u w)
    ((setList d).filter (fun w => decide (w ∉ F)))
  let Ekeys := (eEdges ++ dEdges).dedup
  let Egammas ← mapOpt (fun k => dictGet k x.gammas) Ekeys
  let contrib := (0.5 : R) * tcos (2 * alpha_u) * tsin (2 * beta_u) *
    tcos (2 * alpha_v) * tsin (2 * beta_v) * (Egammas.map tcos).prod
  let fPairs ← mapOpt (fun f => trianglePair x.gammas u v f) (setList F)
  let tri1 := (fPairs.map (fun p => tcos (p.1 + p.2))).prod
  let tri2 := (fPairs.map (fun p => tcos (p.1 - p.2))).prod
  pure (contrib * (tri1 - tri2))

/-- `XQAOA.total_cost()`: recompute every edge cost (skipping `term3` for
edges not contained in a triangle), store the costs, and return their
sum together with the updated evaluator state. -/
def XQAOA.total_cost {R : Type} [Field R] (tsin tcos : R → R) (x : XQAOA R) :
    Option (R × XQAOA R) := do
  let newCosts ← mapOpt (fun kv => do
      let t1 ← XQAOA.term1 tsin tcos x kv.1
      let t2 ← XQAOA.term2 tsin tcos x kv.1
      let t3 ← if x.graph.in_triangle kv.1 then XQAOA.term3 tsin tcos x kv.1
        else pure (0 : R)
      pure (kv.1, (0.5 : R) + (0.5 : R) * (t1 + t2 + t3))) x.edge_costs
  pure (((newCosts.map Prod.snd).sum, { x with edge_costs := newCosts }))

/-- Variant of `total_cost` that evaluates the `term3` formula for every
edge instead of skipping non-triangle edges (the comparison object of the
spec's refinement statement). -/
def XQAOA.total_cost_forced {R : Type} [Field R] (tsin tcos : R → R)
    (x : XQAOA R) : Option (R × XQAOA R) := do
  let newCosts ← mapOpt (fun kv => do
      let t1 ← XQAOA.term1 tsin tcos x kv.1
      let t2 ← XQAOA.term2 tsin tcos x kv.1
      let t3 ← XQAOA.term3 tsin tcos x kv.1
      pure (kv.1, (0.5 : R) + (0.5 : R) * (t1 + t2 + t3))) x.edge_costs
  pure (((newCosts.map Prod.snd).sum, { x with edge_costs := newCosts }))

/-- Structural invariant of a graph built by `Graph.make` from a
self-loop-free edge list: every key is a strictly ordered pair of valid
node ids, the key list is strictly ascending, and there are at most as
many distinct keys as raw input edges. -/
def Graph.WF (g : Graph) : Prop :=
  (∀ p ∈ g.edgeKeys, p.1 < p.2 ∧ p.2 < g.num_nodes) ∧
  List.Pairwise pairLt g.edgeKeys ∧
  g.edgeKeys.length ≤ g.num_edges

instance (g : Graph) : Decidable g.WF := by
  unfold Graph.WF pairLt
  infer_instance

/-- Evaluator invariant: well-formed graph, and the four dicts keyed, in
order, by the node ids `0 .. n-1` (alphas, betas) and by the graph's edge
keys (gammas, edge costs). -/
def XQAOA.WF {R : Type} (x : XQAOA R) : Prop :=
  x.graph.WF ∧
  x.alphas.map Prod.fst = List.range x.graph.num_nodes ∧
  x.betas.map Prod.fst = List.range x.graph.num_nodes ∧
  x.gammas.map Prod.fst = x.graph.edgeKeys ∧
  x.edge_costs.map Prod.fst = x.graph.edgeKeys

instance {R : Type} (x : XQAOA R) : Decidable x.WF := by
  unfold XQAOA.WF
  infer_instance

/-! ### Basic lemmas about the dict / set / iteration helpers -/

theorem dictGet_isSome_of_mem {κ V : Type} [DecidableEq κ]
    {l : List (κ × V)} {k : κ} (h : k ∈ l.map Prod.fst) :
    ∃ v, dictGet k l = some v := by
  induction l with
  | nil => simp at h
  | cons a l ih =>
    obtain ⟨k', v⟩ := a
    rw [dictGet]
    by_cases hk : k = k'
    · exact ⟨v, by simp [hk]⟩
    · simp only [List.map_cons, List.mem_cons] at h
      rcases h with h | h
      · exact absurd h hk
      · simpa [hk] using ih h

theorem dictGet_getD_of_mem {κ V : Type} [DecidableEq κ]
    {l : List (κ × V)} {k : κ} (h : k ∈ l.map Prod.fst) (d : V) :
    dictGet k l = some ((dictGet k l).getD d) := by
  obtain ⟨v, hv⟩ := dictGet_isSome_of_mem h
  simp [hv]

theorem dictGet_map_pair {κ V : Type} [DecidableEq κ] (l : List κ) (c : V)
    (k : κ) :
    dictGet k (l.map (fun a => (a, c))) = if k ∈ l then some c else none := by
  induction l with
  | nil => simp [dictGet]
  | cons a l ih =>
    rw [List.map_cons, dictGet, ih]
    by_cases hk : k = a <;> simp [hk]

theorem mapOpt_eq_map {α β : Type} {f : α → Option β} {g : α → β} :
    ∀ {l : List α}, (∀ a ∈ l, f a = some (g a)) →
      mapOpt f l = some (l.map g)
  | [], _ => rfl
  | a :: l, h => by
    rw [mapOpt, h a (by simp), mapOpt_eq_map (fun b hb => h b (by simp [hb]))]
    rfl

theorem mapOpt_congr {α β : Type} {f g : α → Option β} :
    ∀ {l : List α}, (∀ a ∈ l, f a = g a) → mapOpt f l = mapOpt g l
  | [], _ => rfl
  | a :: l, h => by
    rw [mapOpt, mapOpt, h a (by simp),
      mapOpt_congr (fun b hb => h b (by simp [hb]))]

theorem assignVals_eq_zip {κ V : Type} :
    ∀ (l : List (κ × V)) (vs : List V), l.length ≤ vs.length →
      assignVals l vs = some (List.zip (l.map Prod.fst) vs)
  | [], vs, _ => by cases vs <;> rfl
  | (k, v₀) :: rest, v :: vs, h => by
    rw [assignVals, assignVals_eq_zip rest vs (by simpa using h)]
    rfl

theorem msList_coe (m : Multiset Nat) : (msList m : Multiset Nat) = m :=
  Quotient.inductionOn m (fun l => Quot.sound (List.perm_insertionSort _ l))

theorem mem_setList {s : Finset Nat} {a : Nat} : a ∈ setList s ↔ a ∈ s := by
  rw [setList, ← Multiset.mem_coe, msList_coe]
  rfl

theorem nodup_setList (s : Finset Nat) : (setList s).Nodup := by
  rw [setList, ← Multiset.coe_nodup, msList_coe]
  exact s.nodup

theorem prod_setList {M : Type} [CommMonoid M] (s : Finset Nat)
    (f : Nat → M) : ((setList s).map f).prod = s.prod f := by
  rw [Finset.prod, ← msList_coe s.val, setList, Multiset.map_coe,
    Multiset.prod_coe]

theorem canonKey_comm (a b : Nat) : canonKey a b = canonKey b a := by
  simp [canonKey, Nat.min_comm, Nat.max_comm]

theorem edgeIdP_eq_canonKey {u v : Nat} (h : u ≠ v) :
    edgeIdP u v = some (canonKey u v) := by
  unfold edgeIdP canonKey
  split_ifs with h1 h2
  · exact absurd h1 h
  all_goals simp only [Option.some.injEq, Prod.mk.injEq]; omega

/-! ### Membership in `Graph.neighbours` -/

theorem mem_neighbours {g : Graph} {nid w : Nat} :
    w ∈ g.neighbours nid ↔
      ∃ p ∈ g.edgeKeys,
        (nid = p.1 ∧ w = p.2) ∨ (nid ≠ p.1 ∧ nid = p.2 ∧ w = p.1) := by
  simp only [Graph.neighbours, List.mem_toFinset, List.mem_filterMap]
  constructor
  · rintro ⟨p, hp, hf⟩
    refine ⟨p, hp, ?_⟩
    revert hf
    split_ifs with h1 h2 <;> intro hf <;> simp_all
  · rintro ⟨p, hp, h⟩
    refine ⟨p, hp, ?_⟩
    rcases h with ⟨h1, h2⟩ | ⟨h1, h2, h3⟩ <;> split_ifs <;> simp_all

theorem mem_neighbours_wf {g : Graph} (hg : g.WF) {nid w : Nat} :
    w ∈ g.neighbours nid ↔
      ((nid, w) ∈ g.edgeKeys ∨ (w, nid) ∈ g.edgeKeys) := by
  rw [mem_neighbours]
  constructor
  · rintro ⟨p, hp, ⟨h1, h2⟩ | ⟨h1, h2, h3⟩⟩
    · left
      rwa [h1, h2, Prod.mk.eta]
    · right
      rwa [h2, h3, Prod.mk.eta]
  · rintro (h | h)
    · exact ⟨(nid, w), h, Or.inl ⟨rfl, rfl⟩⟩
    · have hlt := (hg.1 _ h).1
      exact ⟨(w, nid), h, Or.inr ⟨by simp; omega, rfl, rfl⟩⟩

theorem neighbours_ne_self {g : Graph} (hg : g.WF) {nid w : Nat}
    (h : w ∈ g.neighbours nid) : w ≠ nid := by
  rw [mem_neighbours_wf hg] at h
  rcases h with h | h <;> have := (hg.1 _ h).1 <;> simp at this ⊢ <;> omega

theorem neighbours_lt {g : Graph} (hg : g.WF) {nid w : Nat}
    (h : w ∈ g.neighbours nid) : w < g.num_nodes ∧ nid < g.num_nodes := by
  rw [mem_neighbours_wf hg] at h
  rcases h with h | h <;> have := hg.1 _ h <;> simp at this <;> omega

theorem canonKey_mem_of_neighbour {g : Graph} (hg : g.WF) {nid w : Nat}
    (h : w ∈ g.neighbours nid) : canonKey nid w ∈ g.edgeKeys := by
  rw [mem_neighbours_wf hg] at h
  rcases h with h | h <;> have := (hg.1 _ h).1 <;> simp at this
  · have : canonKey nid w = (nid, w) := by
      simp only [canonKey, Prod.mk.injEq]; omega
    rwa [this]
  · have : canonKey nid w = (w, nid) := by
      simp only [canonKey, Prod.mk.injEq]; omega
    rwa [this]

theorem endpoint_mem_neighbours {g : Graph} (hg : g.WF) {ek : Nat × Nat}
    (h : ek ∈ g.edgeKeys) :
    ek.1 ∈ g.neighbours ek.2 ∧ ek.2 ∈ g.neighbours ek.1 := by
  constructor
  · rw [mem_neighbours_wf hg]
    right
    rwa [Prod.mk.eta]
  · rw [mem_neighbours_wf hg]
    left
    rwa [Prod.mk.eta]

/-! ### Properties of `Graph.make` -/

theorem make_fields {n : Nat} {es : List (Nat × Nat)} {g : Graph}
    (h : Graph.make n es = some g) :
    g.num_nodes = n ∧ g.num_edges = es.length ∧
    g.edgeKeys =
      (List.insertionSort pairLe
        (es.map (fun p => (min p.1 p.2, max p.1 p.2)))).dedup ∧
    ∀ p ∈ es.map (fun p => (min p.1 p.2, max p.1 p.2)),
      p.1 < n ∧ p.2 < n := by
  by_cases hc : ∀ p ∈ es.map (fun p => (min p.1 p.2, max p.1 p.2)),
      p.1 < n ∧ p.2 < n
  · rw [Graph.make] at h
    rw [if_pos hc] at h
    injection h with h
    subst h
    exact ⟨rfl, rfl, rfl, hc⟩
  · rw [Graph.make] at h
    rw [if_neg hc] at h
    cases h

theorem make_mem_edgeKeys {n : Nat} {es : List (Nat × Nat)} {g : Graph}
    (h : Graph.make n es = some g) (p : Nat × Nat) :
    p ∈ g.edgeKeys ↔ ∃ q ∈ es, (min q.1 q.2, max q.1 q.2) = p := by
  rw [(make_fields h).2.2.1]
  simp [List.mem_dedup, List.mem_insertionSort]

theorem make_sorted {n : Nat} {es : List (Nat × Nat)} {g : Graph}
    (h : Graph.make n es = some g) : List.Pairwise pairLt g.edgeKeys := by
  rw [(make_fields h).2.2.1]
  set l := List.insertionSort pairLe
    (es.map (fun p => (min p.1 p.2, max p.1 p.2))) with hl
  have hle : List.Pairwise pairLe l.dedup :=
    List.Pairwise.sublist (List.dedup_sublist l)
      (List.sorted_insertionSort pairLe _)
  have hne : List.Pairwise (fun a b : Nat × Nat => a ≠ b) l.dedup :=
    List.nodup_dedup l
  refine (hle.and hne).imp ?_
  rintro a b ⟨h1, h2⟩
  rcases h1 with h1 | ⟨h1, h1'⟩
  · exact Or.inl h1
  · right
    refine ⟨h1, ?_⟩
    rcases Nat.lt_or_ge a.2 b.2 with hlt | hge
    · exact hlt
    · exact absurd (Prod.ext h1 (le_antisymm h1' hge)) h2

theorem make_len_le {n : Nat} {es : List (Nat × Nat)} {g : Graph}
    (h : Graph.make n es = some g) : g.edgeKeys.length ≤ g.num_edges := by
  rw [(make_fields h).2.2.1, (make_fields h).2.1]
  calc (List.insertionSort pairLe
      (es.map (fun p => (min p.1 p.2, max p.1 p.2)))).dedup.length
      ≤ (List.insertionSort pairLe
        (es.map (fun p => (min p.1 p.2, max p.1 p.2)))).length :=
        (List.dedup_sublist _).length_le
    _ = es.length := by
        rw [List.length_insertionSort, List.length_map]

theorem make_WF {n : Nat} {es : List (Nat × Nat)} {g : Graph}
    (h : Graph.make n es = some g) (hloop : ∀ q ∈ es, q.1 ≠ q.2) :
    g.WF := by
  obtain ⟨hn, hm, hkeys, hrange⟩ := make_fields h
  refine ⟨?_, make_sorted h, make_len_le h⟩
  intro p hp
  rw [make_mem_edgeKeys h] at hp
  obtain ⟨q, hq, rfl⟩ := hp
  have h1 := hloop q hq
  have h2 := hrange (min q.1 q.2, max q.1 q.2) (List.mem_map_of_mem _ hq)
  simp only at h2 ⊢
  omega

/-! ### The evaluator invariant under construction and `set_angles` -/

theorem map_fst_pairs {κ V : Type} (l : List κ) (c : V) :
    (l.map (fun a => (a, c))).map Prod.fst = l := by
  induction l <;> simp_all

theorem init_WF {R : Type} [Field R] {g : Graph} (hg : g.WF) :
    (XQAOA.init (R := R) g).WF :=
  ⟨hg, map_fst_pairs _ _, map_fst_pairs _ _, map_fst_pairs _ _,
    map_fst_pairs _ _⟩

theorem init_alphas_len {R : Type} [Field R] (g : Graph) :
    (XQAOA.init (R := R) g).alphas.length = g.num_nodes := by
  simp [XQAOA.init]

theorem keys_length {R : Type} {x : XQAOA R} (hx : x.WF) :
    x.alphas.length = x.graph.num_nodes ∧
    x.betas.length = x.graph.num_nodes ∧
    x.gammas.length = x.graph.edgeKeys.length := by
  refine ⟨?_, ?_, ?_⟩
  · have := congrArg List.length hx.2.1
    simpa using this
  · have := congrArg List.length hx.2.2.1
    simpa using this
  · have := congrArg List.length hx.2.2.2.1
    simpa using this

theorem set_angles_eq {R : Type} [Field R] {x : XQAOA R} (hx : x.WF)
    {angles : List R}
    (hlen : angles.length = 2 * x.graph.num_nodes + x.graph.num_edges) :
    x.set_angles angles = some { x with
      alphas := List.zip (List.range x.graph.num_nodes)
        (angles.take x.graph.num_nodes)
      betas := List.zip (List.range x.graph.num_nodes)
        ((angles.drop x.graph.num_nodes).take x.graph.num_nodes)
      gammas := List.zip x.graph.edgeKeys
        (angles.drop (2 * x.graph.num_nodes)) } := by
  obtain ⟨ha, hb, hc⟩ := keys_length hx
  rw [XQAOA.set_angles, if_pos hlen]
  rw [assignVals_eq_zip _ _ (by simp [ha, hlen]; omega),
    assignVals_eq_zip _ _ (by simp [hb, hlen]; omega),
    assignVals_eq_zip _ _ (by simp [hc, hlen]; have := hx.1.2.2; omega)]
  rw [hx.2.1, hx.2.2.1, hx.2.2.2.1]
  rfl

theorem set_angles_none {R : Type} [Field R] (x : XQAOA R)
    (angles : List R)
    (h : angles.length ≠ 2 * x.graph.num_nodes + x.graph.num_edges) :
    x.set_angles angles = none := by
  rw [XQAOA.set_angles, if_neg h]

theorem set_angles_WF {R : Type} [Field R] {x : XQAOA R} (hx : x.WF)
    {angles : List R} {x' : XQAOA R}
    (h : x.set_angles angles = some x') : x'.WF := by
  by_cases hlen :
      angles.length = 2 * x.graph.num_nodes + x.graph.num_edges
  · rw [set_angles_eq hx hlen] at h
    injection h with h
    subst h
    refine ⟨hx.1, ?_, ?_, ?_, hx.2.2.2.2⟩
    · exact List.map_fst_zip _ _ (by simp [hlen]; omega)
    · exact List.map_fst_zip _ _ (by simp [hlen]; omega)
    · exact List.map_fst_zip _ _ (by simp [hlen]; exact hx.1.2.2)
  · rw [set_angles_none x angles hlen] at h
    cases h

/-! ### Spec-side formulation of the cost formulas

These definitions transcribe the spec's closed-form Equation-22
expressions (total functions over `Finset` products); the theorems below
show the code's fallible term computations produce exactly these values
on well-formed states. -/

/-- The alpha angle of node `i` (0 when absent, which never happens on a
well-formed state). -/
def alphaOf {R : Type} [Field R] (x : XQAOA R) (i : Nat) : R :=
  (dictGet i x.alphas).getD 0

/-- The beta angle of node `i`. -/
def betaOf {R : Type} [Field R] (x : XQAOA R) (i : Nat) : R :=
  (dictGet i x.betas).getD 0

/-- The gamma angle of edge key `k`. -/
def gammaOf {R : Type} [Field R] (x : XQAOA R) (k : Nat × Nat) : R :=
  (dictGet k x.gammas).getD 0

/-- The spec's set `e` for edge `{u, v}`: `neighbours(v) \ {u}`. -/
def Graph.eSet (g : Graph) (ek : Nat × Nat) : Finset Nat :=
  (g.neighbours ek.2).erase ek.1

/-- The spec's set `d` for edge `{u, v}`: `neighbours(u) \ {v}`. -/
def Graph.dSet (g : Graph) (ek : Nat × Nat) : Finset Nat :=
  (g.neighbours ek.1).erase ek.2

/-- The spec's set `E`: the non-triangle edges
`{(v,w) : w ∈ e, w ∉ F} ∪ {(u,w) : w ∈ d, w ∉ F}`, deduplicated by
canonical edge key. -/
def Graph.ESet (g : Graph) (ek : Nat × Nat) : Finset (Nat × Nat) :=
  ((g.eSet ek).filter (fun w => w ∉ g.triangle_nodes ek)).image
      (fun w => canonKey ek.2 w) ∪
    ((g.dSet ek).filter (fun w => w ∉ g.triangle_nodes ek)).image
      (fun w => canonKey ek.1 w)

/-- The spec's `term1` for edge `{u, v}` =
`cos(2·α_u)·cos(2·α_v)·sin(γ_uv)·(cos(2β_u)sin(2β_v)·Π_{w∈e} cos(γ_wv)
+ sin(2β_u)cos(2β_v)·Π_{w∈d} cos(γ_uw))`. -/
def specTerm1 {R : Type} [Field R] (tsin tcos : R → R) (x : XQAOA R)
    (ek : Nat × Nat) : R :=
  tcos (2 * alphaOf x ek.1) * tcos (2 * alphaOf x ek.2) *
    tsin (gammaOf x ek) *
    (tcos (2 * betaOf x ek.1) * tsin (2 * betaOf x ek.2) *
        (x.graph.eSet ek).prod (fun w => tcos (gammaOf x (canonKey w ek.2))) +
      tsin (2 * betaOf x ek.1) * tcos (2 * betaOf x ek.2) *
        (x.graph.dSet ek).prod (fun w => tcos (gammaOf x (canonKey ek.1 w))))

/-- The spec's `term2` =
`-0.5·sin(2α_u)·sin(2α_v)·Π_{k∈E} cos(γ_k)·(Π_{f∈F} cos(γ_uf+γ_vf)
+ Π_{f∈F} cos(γ_uf−γ_vf))`, empty products being 1. -/
def specTerm2 {R : Type} [Field R] (tsin tcos : R → R) (x : XQAOA R)
    (ek : Nat × Nat) : R :=
  -(0.5 : R) * tsin (2 * alphaOf x ek.1) * tsin (2 * alphaOf x ek.2) *
    (x.graph.ESet ek).prod (fun k => tcos (gammaOf x k)) *
    ((x.graph.triangle_nodes ek).prod (fun f =>
        tcos (gammaOf x (canonKey ek.1 f) + gammaOf x (canonKey ek.2 f))) +
      (x.graph.triangle_nodes ek).prod (fun f =>
        tcos (gammaOf x (canonKey ek.1 f) - gammaOf x (canonKey ek.2 f))))

/-- The spec's `term3` =
`0.5·cos(2α_u)·sin(2β_u)·cos(2α_v)·sin(2β_v)·Π_{k∈E} cos(γ_k)·
(Π_{f∈F} cos(γ_uf+γ_vf) − Π_{f∈F} cos(γ_uf−γ_vf))`; it is 0 whenever
`F = ∅`. -/
def specTerm3 {R : Type} [Field R] (tsin tcos : R → R) (x : XQAOA R)
    (ek : Nat × Nat) : R :=
  (0.5 : R) * tcos (2 * alphaOf x ek.1) * tsin (2 * betaOf x ek.1) *
    tcos (2 * alphaOf x ek.2) * tsin (2 * betaOf x ek.2) *
    (x.graph.ESet ek).prod (fun k => tcos (gammaOf x k)) *
    ((x.graph.triangle_nodes ek).prod (fun f =>
        tcos (gammaOf x (canonKey ek.1 f) + gammaOf x (canonKey ek.2 f))) -
      (x.graph.triangle_nodes ek).prod (fun f =>
        tcos (gammaOf x (canonKey ek.1 f) - gammaOf x (canonKey ek.2 f))))

/-- The spec's per-edge cost `0.5 + 0.5·(term1 + term2 + term3)`. -/
def specEdgeCost {R : Type} [Field R] (tsin tcos : R → R) (x : XQAOA R)
    (ek : Nat × Nat) : R :=
  (0.5 : R) + (0.5 : R) * (specTerm1 tsin tcos x ek +
    specTerm2 tsin tcos x ek + specTerm3 tsin tcos x ek)

/-- The spec's total cost: the sum of the per-edge costs over all edge
keys. -/
def specTotalCost {R : Type} [Field R] (tsin tcos : R → R)
    (x : XQAOA R) : R :=
  (x.graph.edgeKeys.map (specEdgeCost tsin tcos x)).sum

/-! ### The code's terms compute the spec's expressions -/

theorem dictGet_alphas {R : Type} [Field R] {x : XQAOA R} (hx : x.WF)
    {i : Nat} (hi : i < x.graph.num_nodes) :
    dictGet i x.alphas = some (alphaOf x i) := by
  have hm : i ∈ x.alphas.map Prod.fst := by
    rw [hx.2.1]
    simpa using hi
  exact dictGet_getD_of_mem hm 0

theorem dictGet_betas {R : Type} [Field R] {x : XQAOA R} (hx : x.WF)
    {i : Nat} (hi : i < x.graph.num_nodes) :
    dictGet i x.betas = some (betaOf x i) := by
  have hm : i ∈ x.betas.map Prod.fst := by
    rw [hx.2.2.1]
    simpa using hi
  exact dictGet_getD_of_mem hm 0

theorem dictGet_gammas {R : Type} [Field R] {x : XQAOA R} (hx : x.WF)
    {k : Nat × Nat} (hk : k ∈ x.graph.edgeKeys) :
    dictGet k x.gammas = some (gammaOf x k) := by
  have hm : k ∈ x.gammas.map Prod.fst := by
    rw [hx.2.2.2.1]
    exact hk
  exact dictGet_getD_of_mem hm 0

theorem lookupGamma_eq {R : Type} [Field R] {x : XQAOA R} (hx : x.WF)
    {a b : Nat} (hne : a ≠ b) (hmem : canonKey a b ∈ x.graph.edgeKeys) :
    lookupGamma x.gammas a b = some (gammaOf x (canonKey a b)) := by
  rw [lookupGamma, edgeIdP_eq_canonKey hne, Option.some_bind']
  exact dictGet_gammas hx hmem

theorem triangle_node_facts {g : Graph} (hg : g.WF) {ek : Nat × Nat}
    {f : Nat} (hf : f ∈ g.triangle_nodes ek) :
    f ≠ ek.1 ∧ f ≠ ek.2 ∧ canonKey ek.1 f ∈ g.edgeKeys ∧
      canonKey ek.2 f ∈ g.edgeKeys := by
  rw [Graph.triangle_nodes, Finset.mem_inter] at hf
  exact ⟨neighbours_ne_self hg hf.1, neighbours_ne_self hg hf.2,
    canonKey_mem_of_neighbour hg hf.1, canonKey_mem_of_neighbour hg hf.2⟩

theorem trianglePair_eq {R : Type} [Field R] {x : XQAOA R} (hx : x.WF)
    {ek : Nat × Nat} {f : Nat} (hf : f ∈ x.graph.triangle_nodes ek) :
    trianglePair x.gammas ek.1 ek.2 f =
      some (gammaOf x (canonKey ek.1 f), gammaOf x (canonKey ek.2 f)) := by
  obtain ⟨h1, h2, h3, h4⟩ := triangle_node_facts hx.1 hf
  rw [trianglePair, lookupGamma_eq hx (Ne.symm h1) h3, Option.some_bind',
    lookupGamma_eq hx (Ne.symm h2) h4]
  rfl

theorem term1_eq_spec {R : Type} [Field R] (tsin tcos : R → R)
    {x : XQAOA R} (hx : x.WF) {ek : Nat × Nat}
    (hek : ek ∈ x.graph.edgeKeys) :
    XQAOA.term1 tsin tcos x ek = some (specTerm1 tsin tcos x ek) := by
  have hlt := hx.1.1 _ hek
  have hau : dictGet ek.1 x.alphas = some (alphaOf x ek.1) :=
    dictGet_alphas hx (by omega)
  have hav : dictGet ek.2 x.alphas = some (alphaOf x ek.2) :=
    dictGet_alphas hx (by omega)
  have hbu : dictGet ek.1 x.betas = some (betaOf x ek.1) :=
    dictGet_betas hx (by omega)
  have hbv : dictGet ek.2 x.betas = some (betaOf x ek.2) :=
    dictGet_betas hx (by omega)
  have hgam : dictGet ek x.gammas = some (gammaOf x ek) :=
    dictGet_gammas hx hek
  have hmem := endpoint_mem_neighbours hx.1 hek
  have he : setRemove (x.graph.neighbours ek.2) ek.1 =
      some (x.graph.eSet ek) := by
    rw [setRemove, if_pos hmem.1]; rfl
  have hd : setRemove (x.graph.neighbours ek.1) ek.2 =
      some (x.graph.dSet ek) := by
    rw [setRemove, if_pos hmem.2]; rfl
  have heg : mapOpt (fun w => lookupGamma x.gammas w ek.2)
      (setList (x.graph.eSet ek)) =
      some ((setList (x.graph.eSet ek)).map
        (fun w => gammaOf x (canonKey w ek.2))) := by
    apply mapOpt_eq_map
    intro w hw
    rw [mem_setList] at hw
    have hw2 : w ∈ x.graph.neighbours ek.2 := Finset.mem_of_mem_erase hw
    have hne : w ≠ ek.2 := neighbours_ne_self hx.1 hw2
    have hm : canonKey w ek.2 ∈ x.graph.edgeKeys := by
      rw [canonKey_comm]
      exact canonKey_mem_of_neighbour hx.1 hw2
    exact lookupGamma_eq hx hne hm
  have hdg : mapOpt (fun w => lookupGamma x.gammas ek.1 w)
      (setList (x.graph.dSet ek)) =
      some ((setList (x.graph.dSet ek)).map
        (fun w => gammaOf x (canonKey ek.1 w))) := by
    apply mapOpt_eq_map
    intro w hw
    rw [mem_setList] at hw
    have hw2 : w ∈ x.graph.neighbours ek.1 := Finset.mem_of_mem_erase hw
    have hne : ek.1 ≠ w := (neighbours_ne_self hx.1 hw2).symm
    exact lookupGamma_eq hx hne (canonKey_mem_of_neighbour hx.1 hw2)
  rw [XQAOA.term1, hau, hav, hbu, hbv, hgam, he, hd]
  simp only [Option.bind_eq_bind, Option.some_bind, Option.pure_def]
  rw [heg, hdg]
  simp only [Option.some_bind, List.map_map]
  rw [prod_setList, prod_setList]
  rfl

theorem ESet_subset_edgeKeys {g : Graph} (hg : g.WF) {ek k : Nat × Nat}
    (hk : k ∈ g.ESet ek) : k ∈ g.edgeKeys := by
  rw [Graph.ESet, Finset.mem_union] at hk
  rcases hk with hk | hk <;> rw [Finset.mem_image] at hk <;>
    obtain ⟨w, hw, rfl⟩ := hk <;> rw [Finset.mem_filter] at hw
  · have hw2 : w ∈ g.neighbours ek.2 :=
      Finset.mem_of_mem_erase hw.1
    exact canonKey_mem_of_neighbour hg hw2
  · have hw2 : w ∈ g.neighbours ek.1 :=
      Finset.mem_of_mem_erase hw.1
    exact canonKey_mem_of_neighbour hg hw2

theorem term2_eq_spec {R : Type} [Field R] (tsin tcos : R → R)
    {x : XQAOA R} (hx : x.WF) {ek : Nat × Nat}
    (hek : ek ∈ x.graph.edgeKeys) :
    XQAOA.term2 tsin tcos x ek = some (specTerm2 tsin tcos x ek) := by
  have hlt := hx.1.1 _ hek
  have hau : dictGet ek.1 x.alphas = some (alphaOf x ek.1) :=
    dictGet_alphas hx (by omega)
  have hav : dictGet ek.2 x.alphas = some (alphaOf x ek.2) :=
    dictGet_alphas hx (by omega)
  have hmem := endpoint_mem_neighbours hx.1 hek
  have he : setRemove (x.graph.neighbours ek.2) ek.1 =
      some (x.graph.eSet ek) := by
    rw [setRemove, if_pos hmem.1]; rfl
  have hd : setRemove (x.graph.neighbours ek.1) ek.2 =
      some (x.graph.dSet ek) := by
    rw [setRemove, if_pos hmem.2]; rfl
  rw [XQAOA.term2, hau, hav, he, hd]
  simp only [Option.bind_eq_bind, Option.some_bind, Option.some_bind',
    Option.pure_def]
  set F := x.graph.triangle_nodes ek with hF
  set eL := (setList (x.graph.eSet ek)).filter
    (fun w => decide (w ∉ F)) with heL
  set dL := (setList (x.graph.dSet ek)).filter
    (fun w => decide (w ∉ F)) with hdL
  have hee : mapOpt (fun w => edgeIdP ek.2 w) eL =
      some (eL.map (fun w => canonKey ek.2 w)) := by
    apply mapOpt_eq_map
    intro w hw
    rw [heL, List.mem_filter, mem_setList] at hw
    exact edgeIdP_eq_canonKey
      (Ne.symm (neighbours_ne_self hx.1 (Finset.mem_of_mem_erase hw.1)))
  have hde : mapOpt (fun w => edgeIdP ek.1 w) dL =
      some (dL.map (fun w => canonKey ek.1 w)) := by
    apply mapOpt_eq_map
    intro w hw
    rw [hdL, List.mem_filter, mem_setList] at hw
    exact edgeIdP_eq_canonKey
      (Ne.symm (neighbours_ne_self hx.1 (Finset.mem_of_mem_erase hw.1)))
  rw [hee, hde]
  simp only [Option.some_bind, Option.some_bind']
  set L := ((eL.map (fun w => canonKey ek.2 w)) ++
    (dL.map (fun w => canonKey ek.1 w))).dedup with hL
  have hLfin : L.toFinset = x.graph.ESet ek := by
    rw [hL, heL, hdL]
    ext k
    simp only [List.mem_toFinset, List.mem_dedup, List.mem_append,
      List.mem_map, List.mem_filter, mem_setList, decide_eq_true_eq,
      Graph.ESet, Finset.mem_union, Finset.mem_image, Finset.mem_filter]
  have hLsub : ∀ k ∈ L, k ∈ x.graph.edgeKeys := by
    intro k hk
    have : k ∈ L.toFinset := List.mem_toFinset.2 hk
    rw [hLfin] at this
    exact ESet_subset_edgeKeys hx.1 this
  have hEg : mapOpt (fun k => dictGet k x.gammas) L =
      some (L.map (fun k => gammaOf x k)) :=
    mapOpt_eq_map (fun k hk => dictGet_gammas hx (hLsub k hk))
  rw [hEg]
  simp only [Option.some_bind, Option.some_bind']
  have hfp : mapOpt (fun f => trianglePair x.gammas ek.1 ek.2 f)
      (setList F) =
      some ((setList F).map (fun f =>
        (gammaOf x (canonKey ek.1 f), gammaOf x (canonKey ek.2 f)))) := by
    apply mapOpt_eq_map
    intro f hf
    rw [mem_setList, hF] at hf
    exact trianglePair_eq hx hf
  rw [hfp]
  simp only [Option.some_bind, Option.some_bind']
  congr 1
  have hp1 : (L.map (fun k => tcos (gammaOf x k))).prod =
      (x.graph.ESet ek).prod (fun k => tcos (gammaOf x k)) := by
    rw [← hLfin,
      List.prod_toFinset _ (by rw [hL]; exact List.nodup_dedup _)]
  have hp2 : ((setList F).map (fun f =>
      tcos (gammaOf x (canonKey ek.1 f) + gammaOf x (canonKey ek.2 f)))).prod =
      F.prod (fun f =>
        tcos (gammaOf x (canonKey ek.1 f) + gammaOf x (canonKey ek.2 f))) :=
    prod_setList _ _
  have hp3 : ((setList F).map (fun f =>
      tcos (gammaOf x (canonKey ek.1 f) - gammaOf x (canonKey ek.2 f)))).prod =
      F.prod (fun f =>
        tcos (gammaOf x (canonKey ek.1 f) - gammaOf x (canonKey ek.2 f))) :=
    prod_setList _ _
  simp only [List.map_map, Function.comp_def]
  rw [hp1, hp2, hp3, specTerm2, hF]

theorem term3_eq_spec {R : Type} [Field R] (tsin tcos : R → R)
    {x : XQAOA R} (hx : x.WF) {ek : Nat × Nat}
    (hek : ek ∈ x.graph.edgeKeys) :
    XQAOA.term3 tsin tcos x ek = some (specTerm3 tsin tcos x ek) := by
  have hlt := hx.1.1 _ hek
  have hau : dictGet ek.1 x.alphas = some (alphaOf x ek.1) :=
    dictGet_alphas hx (by omega)
  have hav : dictGet ek.2 x.alphas = some (alphaOf x ek.2) :=
    dictGet_alphas hx (by omega)
  have hbu : dictGet ek.1 x.betas = some (betaOf x ek.1) :=
    dictGet_betas hx (by omega)
  have hbv : dictGet ek.2 x.betas = some (betaOf x ek.2) :=
    dictGet_betas hx (by omega)
  have hmem := endpoint_mem_neighbours hx.1 hek
  have he : setRemove (x.graph.neighbours ek.2) ek.1 =
      some (x.graph.eSet ek) := by
    rw [setRemove, if_pos hmem.1]; rfl
  have hd : setRemove (x.graph.neighbours ek.1) ek.2 =
      some (x.graph.dSet ek) := by
    rw [setRemove, if_pos hmem.2]; rfl
  rw [XQAOA.term3, hau, hav, hbu, hbv, he, hd]
  simp only [Option.bind_eq_bind, Option.some_bind, Option.some_bind',
    Option.pure_def]
  set F := x.graph.triangle_nodes ek with hF
  set eL := (setList (x.graph.eSet ek)).filter
    (fun w => decide (w ∉ F)) with heL
  set dL := (setList (x.graph.dSet ek)).filter
    (fun w => decide (w ∉ F)) with hdL
  have hee : mapOpt (fun w => edgeIdP ek.2 w) eL =
      some (eL.map (fun w => canonKey ek.2 w)) := by
    apply mapOpt_eq_map
    intro w hw
    rw [heL, List.mem_filter, mem_setList] at hw
    exact edgeIdP_eq_canonKey
      (Ne.symm (neighbours_ne_self hx.1 (Finset.mem_of_mem_erase hw.1)))
  have hde : mapOpt (fun w => edgeIdP ek.1 w) dL =
      some (dL.map (fun w => canonKey ek.1 w)) := by
    apply mapOpt_eq_map
    intro w hw
    rw [hdL, List.mem_filter, mem_setList] at hw
    exact edgeIdP_eq_canonKey
      (Ne.symm (neighbours_ne_self hx.1 (Finset.mem_of_mem_erase hw.1)))
  rw [hee, hde]
  simp only [Option.some_bind, Option.some_bind']
  set L := ((eL.map (fun w => canonKey ek.2 w)) ++
    (dL.map (fun w => canonKey ek.1 w))).dedup with hL
  have hLfin : L.toFinset = x.graph.ESet ek := by
    rw [hL, heL, hdL]
    ext k
    simp only [List.mem_toFinset, List.mem_dedup, List.mem_append,
      List.mem_map, List.mem_filter, mem_setList, decide_eq_true_eq,
      Graph.ESet, Finset.mem_union, Finset.mem_image, Finset.mem_filter]
  have hLsub : ∀ k ∈ L, k ∈ x.graph.edgeKeys := by
    intro k hk
    have : k ∈ L.toFinset := List.mem_toFinset.2 hk
    rw [hLfin] at this
    exact ESet_subset_edgeKeys hx.1 this
  have hEg : mapOpt (fun k => dictGet k x.gammas) L =
      some (L.map (fun k => gammaOf x k)) :=
    mapOpt_eq_map (fun k hk => dictGet_gammas hx (hLsub k hk))
  rw [hEg]
  simp only [Option.some_bind, Option.some_bind']
  have hfp : mapOpt (fun f => trianglePair x.gammas ek.1 ek.2 f)
      (setList F) =
      some ((setList F).map (fun f =>
        (gammaOf x (canonKey ek.1 f), gammaOf x (canonKey ek.2 f)))) := by
    apply mapOpt_eq_map
    intro f hf
    rw [mem_setList, hF] at hf
    exact trianglePair_eq hx hf
  rw [hfp]
  simp only [Option.some_bind, Option.some_bind']
  congr 1
  have hp1 : (L.map (fun k => tcos (gammaOf x k))).prod =
      (x.graph.ESet ek).prod (fun k => tcos (gammaOf x k)) := by
    rw [← hLfin,
      List.prod_toFinset _ (by rw [hL]; exact List.nodup_dedup _)]
  have hp2 : ((setList F).map (fun f =>
      tcos (gammaOf x (canonKey ek.1 f) + gammaOf x (canonKey ek.2 f)))).prod =
      F.prod (fun f =>
        tcos (gammaOf x (canonKey ek.1 f) + gammaOf x (canonKey ek.2 f))) :=
    prod_setList _ _
  have hp3 : ((setList F).map (fun f =>
      tcos (gammaOf x (canonKey ek.1 f) - gammaOf x (canonKey ek.2 f)))).prod =
      F.prod (fun f =>
        tcos (gammaOf x (canonKey ek.1 f) - gammaOf x (canonKey ek.2 f))) :=
    prod_setList _ _
  simp only [List.map_map, Function.comp_def]
  rw [hp1, hp2, hp3, specTerm3, hF]

theorem in_triangle_false_iff (g : Graph) (ek : Nat × Nat) :
    g.in_triangle ek = false ↔ g.triangle_nodes ek = ∅ := by
  rw [Graph.in_triangle]
  simp [Finset.card_eq_zero]

theorem specTerm3_zero {R : Type} [Field R] (tsin tcos : R → R)
    (x : XQAOA R) (ek : Nat × Nat)
    (h : x.graph.triangle_nodes ek = ∅) :
    specTerm3 tsin tcos x ek = 0 := by
  rw [specTerm3, h]
  simp

theorem total_cost_eq_spec {R : Type} [Field R] (tsin tcos : R → R)
    {x : XQAOA R} (hx : x.WF) :
    XQAOA.total_cost tsin tcos x = some (specTotalCost tsin tcos x,
      { x with edge_costs := (x.graph.edgeKeys.map
          (fun k => (k, specEdgeCost tsin tcos x k))) }) := by
  have hmain : mapOpt (fun kv => do
      let t1 ← XQAOA.term1 tsin tcos x kv.1
      let t2 ← XQAOA.term2 tsin tcos x kv.1
      let t3 ← if x.graph.in_triangle kv.1 then XQAOA.term3 tsin tcos x kv.1
        else pure (0 : R)
      pure (kv.1, (0.5 : R) + (0.5 : R) * (t1 + t2 + t3))) x.edge_costs =
      some (x.edge_costs.map
        (fun kv => (kv.1, specEdgeCost tsin tcos x kv.1))) := by
    apply mapOpt_eq_map
    intro kv hkv
    have hk : kv.1 ∈ x.graph.edgeKeys := by
      rw [← hx.2.2.2.2]
      exact List.mem_map_of_mem Prod.fst hkv
    rw [term1_eq_spec tsin tcos hx hk, term2_eq_spec tsin tcos hx hk]
    simp only [Option.bind_eq_bind, Option.some_bind, Option.pure_def]
    by_cases htri : x.graph.in_triangle kv.1
    · rw [if_pos htri, term3_eq_spec tsin tcos hx hk]
      simp only [Option.some_bind, Option.some_bind']
      rfl
    · rw [if_neg htri]
      have h0 : specTerm3 tsin tcos x kv.1 = 0 :=
        specTerm3_zero tsin tcos x kv.1
          ((in_triangle_false_iff _ _).1 (Bool.not_eq_true _ ▸ htri))
      simp only [Option.some_bind, Option.some_bind', Option.some.injEq,
        Prod.mk.injEq, specEdgeCost, h0, add_zero]
  rw [XQAOA.total_cost, hmain]
  simp only [Option.bind_eq_bind, Option.some_bind, Option.pure_def]
  have hkeys : x.edge_costs.map
      (fun kv => (kv.1, specEdgeCost tsin tcos x kv.1)) =
      x.graph.edgeKeys.map (fun k => (k, specEdgeCost tsin tcos x k)) := by
    rw [← hx.2.2.2.2, List.map_map]
    rfl
  rw [hkeys]
  have hsum : ((x.graph.edgeKeys.map
      (fun k => (k, specEdgeCost tsin tcos x k))).map Prod.snd).sum =
      specTotalCost tsin tcos x := by
    rw [List.map_map, specTotalCost]
    rfl
  rw [hsum]

/-! ### Concrete graphs used by the witnesses -/

/-- The 3-node triangle graph, as built by
`Graph.make 3 [(0,1),(1,2),(0,2)]`. -/
def triGraph : Graph := ⟨3, 3, [(0, 1), (0, 2), (1, 2)]⟩

/-- The single-edge 2-node graph, as built by `Graph.make 2 [(0,1)]`. -/
def k2Graph : Graph := ⟨2, 1, [(0, 1)]⟩

/-! ### The claims -/

/-- C4: for every graph and every angle sequence of the required length,
`set_angles` assigns `angles[i]` to the i-th node id (ascending) as its
alpha, `angles[num_nodes + i]` as its beta, and `angles[2*num_nodes + j]`
to the j-th edge key in the ascending `(min, max)` order fixed at
construction as its gamma, fully replacing all previous values. -/
theorem C4_set_angles_positional {R : Type} [Field R] (x : XQAOA R)
    (hx : x.WF) (angles : List R)
    (hlen : angles.length = 2 * x.graph.num_nodes + x.graph.num_edges) :
    List.Pairwise pairLt x.graph.edgeKeys ∧
    x.set_angles angles = some { x with
      alphas := List.zip (List.range x.graph.num_nodes)
        (angles.take x.graph.num_nodes)
      betas := List.zip (List.range x.graph.num_nodes)
        ((angles.drop x.graph.num_nodes).take x.graph.num_nodes)
      gammas := List.zip x.graph.edgeKeys
        (angles.drop (2 * x.graph.num_nodes)) } :=
  ⟨hx.1.2.1, set_angles_eq hx hlen⟩

/-- Witness for C4 on the single-edge graph with angles `[1,2,3,4,5]`. -/
theorem C4_witness :
    (XQAOA.init (R := ℚ) k2Graph).WF ∧
    ([1, 2, 3, 4, 5] : List ℚ).length =
      2 * (XQAOA.init (R := ℚ) k2Graph).graph.num_nodes +
        (XQAOA.init (R := ℚ) k2Graph).graph.num_edges ∧
    (List.Pairwise pairLt (XQAOA.init (R := ℚ) k2Graph).graph.edgeKeys ∧
      (XQAOA.init (R := ℚ) k2Graph).set_angles [1, 2, 3, 4, 5] =
        some { XQAOA.init (R := ℚ) k2Graph with
          alphas := List.zip
            (List.range (XQAOA.init (R := ℚ) k2Graph).graph.num_nodes)
            (([1, 2, 3, 4, 5] : List ℚ).take
              (XQAOA.init (R := ℚ) k2Graph).graph.num_nodes)
          betas := List.zip
            (List.range (XQAOA.init (R := ℚ) k2Graph).graph.num_nodes)
            ((([1, 2, 3, 4, 5] : List ℚ).drop
              (XQAOA.init (R := ℚ) k2Graph).graph.num_nodes).take
              (XQAOA.init (R := ℚ) k2Graph).graph.num_nodes)
          gammas := List.zip (XQAOA.init (R := ℚ) k2Graph).graph.edgeKeys
            (([1, 2, 3, 4, 5] : List ℚ).drop
              (2 * (XQAOA.init (R := ℚ) k2Graph).graph.num_nodes)) }) :=
  ⟨by decide, by decide,
    C4_set_angles_positional (XQAOA.init (R := ℚ) k2Graph) (by decide)
      [1, 2, 3, 4, 5] (by decide)⟩

/-- C5: `set_angles` with a wrong-length angle sequence fails; since the
length assertion precedes every assignment, no map is modified (in this
functional embedding a failed call returns `none` and the prior state is
untouched by construction). -/
theorem C5_wrong_length_rejected {R : Type} [Field R] (x : XQAOA R)
    (angles : List R)
    (h : angles.length ≠ 2 * x.graph.num_nodes + x.graph.num_edges) :
    x.set_angles angles = none :=
  set_angles_none x angles h

/-- Witness for C5: a 3-element vector for the single-edge graph. -/
theorem C5_witness :
    ([1, 2, 3] : List ℚ).length ≠
      2 * (XQAOA.init (R := ℚ) k2Graph).graph.num_nodes +
        (XQAOA.init (R := ℚ) k2Graph).graph.num_edges ∧
    (XQAOA.init (R := ℚ) k2Graph).set_angles [1, 2, 3] = none :=
  ⟨by decide,
    C5_wrong_length_rejected (XQAOA.init (R := ℚ) k2Graph) [1, 2, 3]
      (by decide)⟩

/-- C6: adjacency is symmetric, `triangle_nodes` is the intersection of
the endpoint neighbour sets and is symmetric in the two endpoints, and
`in_triangle` holds exactly when that intersection is non-empty. -/
theorem C6_adjacency_and_triangles (n : Nat) (es : List (Nat × Nat))
    (g : Graph) (_hg : Graph.make n es = some g) :
    (∀ u w : Nat, w ∈ g.neighbours u ↔ u ∈ g.neighbours w) ∧
    (∀ ek : Nat × Nat,
      g.triangle_nodes ek = g.neighbours ek.1 ∩ g.neighbours ek.2) ∧
    (∀ u v : Nat, g.triangle_nodes (u, v) = g.triangle_nodes (v, u)) ∧
    (∀ ek : Nat × Nat,
      g.in_triangle ek = true ↔ (g.triangle_nodes ek).Nonempty) := by
  refine ⟨?_, fun ek => rfl, ?_, ?_⟩
  · intro u w
    rw [mem_neighbours, mem_neighbours]
    constructor <;> rintro ⟨p, hp, h⟩ <;> refine ⟨p, hp, ?_⟩ <;> omega
  · intro u v
    rw [Graph.triangle_nodes, Graph.triangle_nodes]
    exact Finset.inter_comm _ _
  · intro ek
    rw [Graph.in_triangle]
    simp [Finset.card_eq_zero, Finset.nonempty_iff_ne_empty]

/-- Witness for C6 on the triangle graph. -/
theorem C6_witness :
    Graph.make 3 [(0, 1), (1, 2), (0, 2)] = some triGraph ∧
    ((∀ u w : Nat, w ∈ triGraph.neighbours u ↔ u ∈ triGraph.neighbours w) ∧
    (∀ ek : Nat × Nat, triGraph.triangle_nodes ek =
      triGraph.neighbours ek.1 ∩ triGraph.neighbours ek.2) ∧
    (∀ u v : Nat,
      triGraph.triangle_nodes (u, v) = triGraph.triangle_nodes (v, u)) ∧
    (∀ ek : Nat × Nat, triGraph.in_triangle ek = true ↔
      (triGraph.triangle_nodes ek).Nonempty)) :=
  ⟨by decide,
    C6_adjacency_and_triangles 3 [(0, 1), (1, 2), (0, 2)] triGraph
      (by decide)⟩

/-- C8: `get_edge_id` yields the canonical `"min#max"` key for distinct
identities, independently of argument order, and fails on equal
identities. -/
theorem C8_get_edge_id_canonical (u v : Nat) :
    (u ≠ v → get_edge_id u v =
        some (toString (min u v) ++ "#" ++ toString (max u v)) ∧
      get_edge_id u v = get_edge_id v u) ∧
    (u = v → get_edge_id u v = none) := by
  refine ⟨fun h => ⟨?_, ?_⟩, fun h => ?_⟩
  · rw [get_edge_id]
    rcases Nat.lt_or_ge u v with hlt | hge
    · rw [if_neg h, if_pos hlt]
      have h1 : min u v = u := by omega
      have h2 : max u v = v := by omega
      rw [h1, h2]
    · rw [if_neg h, if_neg (by omega)]
      have h1 : min u v = v := by omega
      have h2 : max u v = u := by omega
      rw [h1, h2]
  · rw [get_edge_id, get_edge_id]
    rcases Nat.lt_or_ge u v with hlt | hge
    · rw [if_neg h, if_pos hlt, if_neg (Ne.symm h), if_neg (by omega)]
    · rw [if_neg h, if_neg (by omega), if_neg (Ne.symm h),
        if_pos (by omega)]
  · rw [get_edge_id, if_pos h]

/-- Witness for C8 at `(1, 2)` and `(3, 3)`. -/
theorem C8_witness :
    get_edge_id 1 2 =
      some (toString (min 1 2) ++ "#" ++ toString (max 1 2)) ∧
    get_edge_id 1 2 = get_edge_id 2 1 ∧
    get_edge_id 3 3 = none :=
  ⟨((C8_get_edge_id_canonical 1 2).1 (by decide)).1,
    ((C8_get_edge_id_canonical 1 2).1 (by decide)).2,
    (C8_get_edge_id_canonical 3 3).2 rfl⟩

theorem alphaOf_init {R : Type} [Field R] (g : Graph) (i : Nat) :
    alphaOf (XQAOA.init (R := R) g) i = 0 := by
  rw [alphaOf, XQAOA.init]
  simp only [dictGet_map_pair]
  split <;> rfl

theorem betaOf_init {R : Type} [Field R] (g : Graph) (i : Nat) :
    betaOf (XQAOA.init (R := R) g) i = 0 := by
  rw [betaOf, XQAOA.init]
  simp only [dictGet_map_pair]
  split <;> rfl

theorem gammaOf_init {R : Type} [Field R] (g : Graph) (k : Nat × Nat) :
    gammaOf (XQAOA.init (R := R) g) k = 0 := by
  rw [gammaOf, XQAOA.init]
  simp only [dictGet_map_pair]
  split <;> rfl

theorem specEdgeCost_init {R : Type} [Field R] (tsin tcos : R → R)
    (hsin : tsin 0 = 0) (g : Graph) (ek : Nat × Nat) :
    specEdgeCost tsin tcos (XQAOA.init (R := R) g) ek = 0.5 := by
  have h1 : specTerm1 tsin tcos (XQAOA.init (R := R) g) ek = 0 := by
    rw [specTerm1, gammaOf_init, hsin]
    ring
  have h2 : specTerm2 tsin tcos (XQAOA.init (R := R) g) ek = 0 := by
    rw [specTerm2, alphaOf_init, mul_zero, hsin]
    ring
  have h3 : specTerm3 tsin tcos (XQAOA.init (R := R) g) ek = 0 := by
    rw [specTerm3, betaOf_init, mul_zero, hsin]
    ring
  rw [specEdgeCost, h1, h2, h3]
  ring

/-- C1: on every well-formed evaluator state, `total_cost()` returns the
sum over all edge keys of the per-edge cost
`0.5 + 0.5*(term1 + term2 + term3)`, where the three terms are exactly
the spec's analytic expressions (empty products over `F` or `E` being 1;
the `term3` formula is 0 whenever `F` is empty, so the code's
skip-branch coincides with it). -/
theorem C1_total_cost_is_spec_sum {R : Type} [Field R] (tsin tcos : R → R)
    (x : XQAOA R) (hx : x.WF) :
    (XQAOA.total_cost tsin tcos x).map Prod.fst =
      some ((x.graph.edgeKeys.map (fun ek => (0.5 : R) + (0.5 : R) *
        (specTerm1 tsin tcos x ek + specTerm2 tsin tcos x ek +
          specTerm3 tsin tcos x ek))).sum) := by
  rw [total_cost_eq_spec tsin tcos hx]
  rfl

/-- C3: a freshly constructed evaluator on a graph built from a valid
`(node_count, edge_list)` has every alpha, beta and gamma equal to 0.0,
and in that state `total_cost()` is exactly `0.5 * num_edges` (using
only `sin 0 = 0`); in particular 1.5 for the triangle graph and 0.5 for
the single-edge graph. -/
theorem C3_default_state_cost {R : Type} [Field R] (tsin tcos : R → R)
    (hsin : tsin 0 = 0) (n : Nat) (es : List (Nat × Nat)) (g : Graph)
    (hg : Graph.make n es = some g) (hloop : ∀ q ∈ es, q.1 ≠ q.2)
    (hdup : g.edgeKeys.length = g.num_edges) :
    (∀ kv ∈ (XQAOA.init (R := R) g).alphas, kv.2 = 0) ∧
    (∀ kv ∈ (XQAOA.init (R := R) g).betas, kv.2 = 0) ∧
    (∀ kv ∈ (XQAOA.init (R := R) g).gammas, kv.2 = 0) ∧
    (XQAOA.total_cost tsin tcos (XQAOA.init (R := R) g)).map Prod.fst =
      some ((0.5 : R) * (g.num_edges : R)) := by
  have hWF : (XQAOA.init (R := R) g).WF := init_WF (make_WF hg hloop)
  refine ⟨?_, ?_, ?_, ?_⟩
  · intro kv hkv
    simp only [XQAOA.init, List.mem_map] at hkv
    obtain ⟨i, _, rfl⟩ := hkv
    rfl
  · intro kv hkv
    simp only [XQAOA.init, List.mem_map] at hkv
    obtain ⟨i, _, rfl⟩ := hkv
    rfl
  · intro kv hkv
    simp only [XQAOA.init, List.mem_map] at hkv
    obtain ⟨k, _, rfl⟩ := hkv
    rfl
  · rw [total_cost_eq_spec tsin tcos hWF]
    rw [Option.map_some']
    congr 1
    rw [specTotalCost]
    have hmap : (XQAOA.init (R := R) g).graph.edgeKeys.map
        (specEdgeCost tsin tcos (XQAOA.init (R := R) g)) =
        (XQAOA.init (R := R) g).graph.edgeKeys.map (fun _ => (0.5 : R)) :=
      List.map_congr_left (fun ek _ => specEdgeCost_init tsin tcos hsin g ek)
    rw [hmap]
    have hgr : (XQAOA.init (R := R) g).graph = g := rfl
    rw [hgr, List.map_const', List.sum_replicate, nsmul_eq_mul, hdup,
      mul_comm]

/-- C7: for every edge whose triangle set `F` is empty, the `term3`
formula evaluates to exactly 0.0, so `total_cost` computed with the
`in_triangle` branch equals `total_cost` computed by unconditionally
evaluating `term3` for every edge. -/
theorem C7_term3_skippable {R : Type} [Field R] (tsin tcos : R → R)
    (x : XQAOA R) (hx : x.WF) :
    (∀ ek ∈ x.graph.edgeKeys, x.graph.triangle_nodes ek = ∅ →
      XQAOA.term3 tsin tcos x ek = some 0) ∧
    XQAOA.total_cost_forced tsin tcos x = XQAOA.total_cost tsin tcos x := by
  constructor
  · intro ek hek hempty
    rw [term3_eq_spec tsin tcos hx hek,
      specTerm3_zero tsin tcos x ek hempty]
  · rw [XQAOA.total_cost_forced, XQAOA.total_cost]
    congr 1
    apply mapOpt_congr
    intro kv hkv
    have hk : kv.1 ∈ x.graph.edgeKeys := by
      rw [← hx.2.2.2.2]
      exact List.mem_map_of_mem Prod.fst hkv
    simp only [← Option.bind_eq_bind]
    refine Option.bind_congr fun t1 _ => Option.bind_congr fun t2 _ => ?_
    by_cases htri : x.graph.in_triangle kv.1
    · rw [if_pos htri]
    · rw [if_neg htri]
      have hempty : x.graph.triangle_nodes kv.1 = ∅ :=
        (in_triangle_false_iff _ _).1 (Bool.not_eq_true _ ▸ htri)
      rw [term3_eq_spec tsin tcos hx hk,
        specTerm3_zero tsin tcos x kv.1 hempty]
      rfl

/-- C9: on a well-formed state (graph built from distinct-endpoint
edges), each endpoint of an edge is a neighbour of the other (so the
`set.remove` calls succeed), and `term1`, `term2`, `term3` and
`total_cost` never fail: every gamma lookup hits an existing edge key. -/
theorem C9_lookups_never_fail {R : Type} [Field R] (tsin tcos : R → R)
    (x : XQAOA R) (hx : x.WF) (ek : Nat × Nat)
    (hek : ek ∈ x.graph.edgeKeys) :
    (ek.1 ∈ x.graph.neighbours ek.2 ∧ ek.2 ∈ x.graph.neighbours ek.1) ∧
    (XQAOA.term1 tsin tcos x ek).isSome = true ∧
    (XQAOA.term2 tsin tcos x ek).isSome = true ∧
    (XQAOA.term3 tsin tcos x ek).isSome = true ∧
    (XQAOA.total_cost tsin tcos x).isSome = true := by
  refine ⟨endpoint_mem_neighbours hx.1 hek, ?_, ?_, ?_, ?_⟩
  · rw [term1_eq_spec tsin tcos hx hek]; rfl
  · rw [term2_eq_spec tsin tcos hx hek]; rfl
  · rw [term3_eq_spec tsin tcos hx hek]; rfl
  · rw [total_cost_eq_spec tsin tcos hx]; rfl

/-- C10: `set_angles` and `total_cost` leave the bound graph (and hence
its node set, edge keys, neighbour sets and triangle sets) unchanged;
`set_angles` also leaves the edge costs unchanged, and `total_cost`
changes only the edge-cost map. -/
theorem C10_graph_not_mutated {R : Type} [Field R] (tsin tcos : R → R)
    (x : XQAOA R) (angles : List R) (v : R) (xs xt : XQAOA R)
    (hs : x.set_angles angles = some xs)
    (ht : XQAOA.total_cost tsin tcos x = some (v, xt)) :
    xs.graph = x.graph ∧ xs.edge_costs = x.edge_costs ∧
    xt.graph = x.graph ∧ xt.alphas = x.alphas ∧ xt.betas = x.betas ∧
    xt.gammas = x.gammas ∧
    (∀ nid, xt.graph.neighbours nid = x.graph.neighbours nid) ∧
    (∀ ek, xt.graph.triangle_nodes ek = x.graph.triangle_nodes ek ∧
      xt.graph.in_triangle ek = x.graph.in_triangle ek) := by
  have hset : xs.graph = x.graph ∧ xs.edge_costs = x.edge_costs := by
    rw [XQAOA.set_angles] at hs
    split at hs
    · simp only [Option.bind_eq_bind, Option.bind_eq_some, Option.pure_def,
        Option.some.injEq] at hs
      obtain ⟨a, _, b, _, c, _, h⟩ := hs
      rw [← h]
      exact ⟨rfl, rfl⟩
    · cases hs
  have htot : xt.graph = x.graph ∧ xt.alphas = x.alphas ∧
      xt.betas = x.betas ∧ xt.gammas = x.gammas := by
    rw [XQAOA.total_cost] at ht
    simp only [Option.bind_eq_bind, Option.bind_eq_some, Option.pure_def,
      Option.some.injEq, Prod.mk.injEq] at ht
    obtain ⟨cs, _, _, h⟩ := ht
    rw [← h]
    exact ⟨rfl, rfl, rfl, rfl⟩
  refine ⟨hset.1, hset.2, htot.1, htot.2.1, htot.2.2.1, htot.2.2.2,
    ?_, ?_⟩
  · intro nid
    rw [htot.1]
  · intro ek
    rw [htot.1]
    exact ⟨rfl, rfl⟩

/-- C2 counterexample: the input list `[(0,1),(1,0)]` holds one distinct
canonical edge, yet `set_angles` on the resulting graph rejects length
`2*2 + 1 = 5` and accepts length `2*2 + 2 = 6`, because the length check
uses `num_edges = len(raw input list)`, not the deduplicated count. -/
theorem C2_counterexample :
    Graph.make 2 [(0, 1), (1, 0)] = some ⟨2, 2, [(0, 1)]⟩ ∧
    (XQAOA.init (R := ℚ) ⟨2, 2, [(0, 1)]⟩).set_angles [0, 0, 0, 0, 0] =
      none ∧
    ((XQAOA.init (R := ℚ) ⟨2, 2, [(0, 1)]⟩).set_angles
      [0, 0, 0, 0, 0, 0]).isSome = true :=
  ⟨by decide, by decide, by decide⟩

/-- C2 amended: construction builds exactly one Edge per distinct
canonical `(min, max)` pair, but `set_angles` succeeds exactly on angle
sequences of length `2*n` plus the length of the raw input edge list
(duplicates included); the two lengths agree exactly when the input list
has no duplicate pairs. -/
theorem C2_amended_edges_and_length {R : Type} [Field R] (n : Nat)
    (es : List (Nat × Nat)) (g : Graph) (hg : Graph.make n es = some g) :
    g.edgeKeys.Nodup ∧
    (∀ p : Nat × Nat, p ∈ g.edgeKeys ↔
      ∃ q ∈ es, canonKey q.1 q.2 = p) ∧
    ∀ angles : List R,
      ((XQAOA.init (R := R) g).set_angles angles).isSome = true ↔
        angles.length = 2 * n + es.length := by
  obtain ⟨hn, hm, hkeys, hrange⟩ := make_fields hg
  refine ⟨?_, ?_, ?_⟩
  · rw [hkeys]
    exact List.nodup_dedup _
  · intro p
    exact make_mem_edgeKeys hg p
  · intro angles
    have hng : (XQAOA.init (R := R) g).graph = g := rfl
    constructor
    · intro hsome
      by_contra hne
      rw [XQAOA.set_angles, hng, hn, hm, if_neg hne] at hsome
      cases hsome
    · intro hlen
      rw [XQAOA.set_angles, hng, hn, hm, if_pos hlen]
      have hlen2 := make_len_le hg
      rw [assignVals_eq_zip _ _
          (by simp [XQAOA.init, hn, hm, hlen]; omega),
        assignVals_eq_zip _ _
          (by simp [XQAOA.init, hn, hm, hlen]; omega),
        assignVals_eq_zip _ _
          (by simp [XQAOA.init, hn, hm, hlen]; omega)]
      rfl

/-- The 3-node path graph (triangle-free), from `Graph.make 3 [(0,1),(1,2)]`. -/
def pathGraph : Graph := ⟨3, 2, [(0, 1), (1, 2)]⟩

/-- The graph built from the duplicated edge list `[(0,1),(1,0)]`. -/
def dupGraph : Graph := ⟨2, 2, [(0, 1)]⟩

/-- Fresh evaluator on the triangle graph over `ℚ`. -/
def xTri : XQAOA ℚ := XQAOA.init triGraph

/-- Fresh evaluator on the single-edge graph over `ℚ`. -/
def xK2 : XQAOA ℚ := XQAOA.init k2Graph

/-- Fresh evaluator on the path graph over `ℚ`. -/
def xP3 : XQAOA ℚ := XQAOA.init pathGraph

/-- The identity as a stand-in trigonometric function over `ℚ`. -/
def idq : ℚ → ℚ := fun t => t

/-- The zero function as a stand-in for `sin` (satisfies `sin 0 = 0`). -/
def zeroq : ℚ → ℚ := fun _ => 0

/-- Witness for C1 on the triangle graph. -/
theorem C1_witness :
    xTri.WF ∧
    (XQAOA.total_cost idq idq xTri).map Prod.fst =
      some ((xTri.graph.edgeKeys.map (fun ek => (0.5 : ℚ) + (0.5 : ℚ) *
        (specTerm1 idq idq xTri ek + specTerm2 idq idq xTri ek +
          specTerm3 idq idq xTri ek))).sum) :=
  ⟨by decide, C1_total_cost_is_spec_sum idq idq xTri (by decide)⟩

/-- Witness for C3 on the triangle graph (`tsin` the zero function). -/
theorem C3_witness :
    zeroq 0 = 0 ∧ Graph.make 3 [(0, 1), (1, 2), (0, 2)] = some triGraph ∧
    (∀ q ∈ [(0, 1), (1, 2), (0, 2)], (q : Nat × Nat).1 ≠ q.2) ∧
    triGraph.edgeKeys.length = triGraph.num_edges ∧
    ((∀ kv ∈ (XQAOA.init (R := ℚ) triGraph).alphas, kv.2 = 0) ∧
      (∀ kv ∈ (XQAOA.init (R := ℚ) triGraph).betas, kv.2 = 0) ∧
      (∀ kv ∈ (XQAOA.init (R := ℚ) triGraph).gammas, kv.2 = 0) ∧
      (XQAOA.total_cost zeroq idq
        (XQAOA.init (R := ℚ) triGraph)).map Prod.fst =
        some ((0.5 : ℚ) * (triGraph.num_edges : ℚ))) :=
  ⟨rfl, by decide, by decide, by decide,
    C3_default_state_cost zeroq idq rfl 3 [(0, 1), (1, 2), (0, 2)]
      triGraph (by decide) (by decide) (by decide)⟩

/-- Witness for C7 on the triangle-free path graph. -/
theorem C7_witness :
    xP3.WF ∧
    ((∀ ek ∈ xP3.graph.edgeKeys, xP3.graph.triangle_nodes ek = ∅ →
      XQAOA.term3 idq idq xP3 ek = some 0) ∧
    XQAOA.total_cost_forced idq idq xP3 =
      XQAOA.total_cost idq idq xP3) :=
  ⟨by decide, C7_term3_skippable idq idq xP3 (by decide)⟩

/-- Witness for C9 on the triangle graph at edge `(0, 1)`. -/
theorem C9_witness :
    xTri.WF ∧ (0, 1) ∈ xTri.graph.edgeKeys ∧
    (((0, 1).1 ∈ xTri.graph.neighbours (0, 1).2 ∧
      (0, 1).2 ∈ xTri.graph.neighbours (0, 1).1) ∧
    (XQAOA.term1 idq idq xTri (0, 1)).isSome = true ∧
    (XQAOA.term2 idq idq xTri (0, 1)).isSome = true ∧
    (XQAOA.term3 idq idq xTri (0, 1)).isSome = true ∧
    (XQAOA.total_cost idq idq xTri).isSome = true) :=
  ⟨by decide, by decide,
    C9_lookups_never_fail idq idq xTri (by decide) (0, 1) (by decide)⟩

/-- The state reached from `xK2` by `set_angles [1,2,3,4,5]`. -/
def xK2set : XQAOA ℚ :=
  ⟨k2Graph, [(0, 1), (1, 2)], [(0, 3), (1, 4)], [((0, 1), 5)],
    [((0, 1), 0)]⟩

/-- The state reached from `xK2` by `total_cost` (edge cost 1/2 stored). -/
def xK2cost : XQAOA ℚ := { xK2 with edge_costs := [((0, 1), 1/2)] }

/-- Witness for C10 on the single-edge graph. -/
theorem C10_witness :
    xK2set.graph = xK2.graph ∧ xK2set.edge_costs = xK2.edge_costs ∧
    xK2cost.graph = xK2.graph ∧ xK2cost.alphas = xK2.alphas ∧
    xK2cost.betas = xK2.betas ∧ xK2cost.gammas = xK2.gammas ∧
    (∀ nid, xK2cost.graph.neighbours nid = xK2.graph.neighbours nid) ∧
    (∀ ek, xK2cost.graph.triangle_nodes ek =
        xK2.graph.triangle_nodes ek ∧
      xK2cost.graph.in_triangle ek = xK2.graph.in_triangle ek) :=
  C10_graph_not_mutated idq idq xK2 [1, 2, 3, 4, 5] (1/2) xK2set xK2cost
    (by decide) (by with_unfolding_all rfl)

/-- Witness for C2's amended statement on the duplicated edge list. -/
theorem C2_witness :
    Graph.make 2 [(0, 1), (1, 0)] = some dupGraph ∧
    (dupGraph.edgeKeys.Nodup ∧
    (∀ p : Nat × Nat, p ∈ dupGraph.edgeKeys ↔
      ∃ q ∈ [(0, 1), (1, 0)], canonKey (q : Nat × Nat).1 q.2 = p) ∧
    ∀ angles : List ℚ,
      ((XQAOA.init (R := ℚ) dupGraph).set_angles angles).isSome = true ↔
        angles.length = 2 * 2 + ([(0, 1), (1, 0)] : List (Nat × Nat)).length) :=
  ⟨by decide,
    C2_amended_edges_and_length 2 [(0, 1), (1, 0)] dupGraph (by decide)⟩
